import Mathlib

/-!
# zupgrade: the Windows `zig` wrapper (`src/windows_zig_wrapper.c`)

A shallow embedding of `read_zig_version` and `main`, and the properties of
the launcher proved on it.

* C `char` arrays are `List Char`. A string literal or an argument string is
  kept without its terminator and occupies the block `lit s`; a proper C
  string holds no NUL, which the statements assume of the install root and
  of the arguments. The bytes read from the selection file are arbitrary.
* A `malloc`ed block is a list of fixed length whose initial bytes are
  arbitrary (`Env.junk`). Every write goes through `store`, which checks the
  block bounds; a write outside a block, or a scan of a block without
  terminator, makes the run undefined (`none`).
* The operating system and the C runtime are an oracle `Env`: which file can
  be opened, what `ftell` reports and what `fread` delivers, which `malloc`
  calls succeed, whether `CreateProcess` succeeds and what
  `GetExitCodeProcess` stores. `fseek`, `ftell` and the wait are taken to
  succeed; `fclose`, `free` and `memset` have no part in what is observed and
  are left out.
* A run yields the trace of its externally visible calls and the value
  returned from `main` or passed to `exit`.
* `size_t` arithmetic is done in `Nat`: the sums are lengths of strings that
  are all resident in memory, so they do not wrap. The conversion of the
  `DWORD` exit code to `int` is modelled modulo 2^32.
* `ZUPGRADE_PATH` is a build-time macro that is not part of the source file;
  it is the parameter `root` of every definition.
-/

namespace Zupgrade

/-! ## C strings and memory blocks -/

/-- The string terminator. -/
def NUL : Char := Char.ofNat 0

/-- The C string held by a block of memory: the bytes before the first
terminator. -/
def cstr (mem : List Char) : List Char := mem.takeWhile (fun c => c != NUL)

/-- A string literal (or any terminated array) with the given characters:
the characters followed by the terminator. `sizeof` of a literal is the
length of this list. -/
def lit (s : List Char) : List Char := s ++ [NUL]

/-- The `sizeof` of a character array. -/
def sizeof (mem : List Char) : Nat := mem.length

/-- The function `strlen`: the index of the first terminator; undefined when
the block holds none. -/
def strlen (mem : List Char) : Option Nat :=
  if NUL ∈ mem then some (cstr mem).length else none

/-- A block returned by a successful `malloc n`: `n` bytes of unspecified
content, byte `i` being `junk i`. -/
def malloc (junk : Nat → Char) (n : Nat) : List Char := (List.range n).map junk

/-- Write `bytes` into `buf` starting at index `off`; undefined when a byte
would fall outside the block. -/
def store (buf : List Char) (off : Nat) (bytes : List Char) : Option (List Char) :=
  if off + bytes.length ≤ buf.length then
    some (buf.take off ++ bytes ++ buf.drop (off + bytes.length))
  else none

/-- The call `strcpy(dst + off, src)`: copies the string held by `src`,
terminator included. -/
def strcpy (dst : List Char) (off : Nat) (src : List Char) : Option (List Char) :=
  match strlen src with
  | none => none
  | some n => store dst off (src.take n ++ [NUL])

/-- The call `strcat(dst, src)`: `strcpy` at the terminator of `dst`. -/
def strcat (dst : List Char) (src : List Char) : Option (List Char) :=
  match strlen dst with
  | none => none
  | some n => strcpy dst n src

/-- What `fprintf` writes for a format string and its string arguments.
Only `%s` and `%%` are interpreted; any other conversion, or a `%s` without
argument, is undefined. -/
def format : List Char → List (List Char) → Option (List Char)
  | [], _ => some []
  | [c], _ => if c = '%' then none else some [c]
  | c :: d :: fmt, args =>
    if c = '%' then
      if d = '%' then (format fmt args).map (fun out => '%' :: out)
      else if d = 's' then
        match args with
        | [] => none
        | a :: args => (format fmt args).map (fun out => cstr a ++ out)
      else none
    else (format (d :: fmt) args).map (fun out => c :: out)

/-! ## The environment and the observable behaviour -/

/-- What the C runtime reports about the opened selection file. -/
structure SelectedFile where
  /-- The offset `ftell` reports after `fseek(…, 0, SEEK_END)`. -/
  size : Nat
  /-- The bytes the stream delivers to `fread`. -/
  data : List Char

/-- What `GetExitCodeProcess` does: its `BOOL` result and the value it stores
through `lpExitCode`, if it stores one. -/
structure StatusQuery where
  ok : Bool
  written : Option Nat

/-- The oracle for everything outside the program. -/
structure Env where
  /-- The call `fopen(path, "r")`: `none` when the file cannot be opened. -/
  fopen : List Char → Option SelectedFile
  /-- Whether the `n`-th call of `malloc` (counted from 0) succeeds. -/
  mallocOk : Nat → Bool
  /-- The content of freshly allocated memory: byte `i` of the block returned
  by the `n`-th call of `malloc` is `junk n i`. -/
  junk : Nat → Nat → Char
  /-- Whether `CreateProcess(app, cmdline, …)` succeeds. -/
  createProcess : List Char → List Char → Bool
  /-- The behaviour of `GetExitCodeProcess` on the child. -/
  getExitCodeProcess : StatusQuery

/-- The externally visible calls of the program. -/
inductive Event where
  | fopen (path : List Char)
  | stderr (text : List Char)
  | stdout (text : List Char)
  | createProcess (app : List Char) (cmdline : List Char) (ok : Bool)
  | waitForSingleObject
  | getExitCodeProcess
  | closeHandle
  deriving DecidableEq, Repr

/-- A terminated run: the calls made, in order, and the value passed to
`exit` or returned from `main`. -/
structure Outcome where
  trace : List Event
  code : Int
  deriving DecidableEq, Repr

/-- How a call of `read_zig_version` ends. -/
inductive Resolved where
  /-- It returns the block holding the version string. -/
  | version (zig_version : List Char)
  /-- It calls `exit(code)`. -/
  | exit (code : Int)
  deriving DecidableEq, Repr

/-- The redefined `EXIT_FAILURE` (lines 9–10). -/
def EXIT_FAILURE : Int := 255

/-- The conversion `(int)` of a `DWORD`. -/
def toInt (dword : Nat) : Int :=
  if dword % 2 ^ 32 < 2 ^ 31 then ((dword % 2 ^ 32 : Nat) : Int)
  else ((dword % 2 ^ 32 : Nat) : Int) - 2 ^ 32

/-- The exit status the operating system records for a value returned from
`main` or passed to `exit`: its low 32 bits. -/
def exitStatus (code : Int) : Nat := (code % 2 ^ 32).toNat

/-! ## The program -/

/-- The function `read_zig_version` (lines 12–48). The first component is the trace of
its calls. -/
def read_zig_version (root : List Char) (env : Env) : Option (List Event × Resolved) :=
  let path := cstr (lit (root ++ "\\zig\\selected".toList))
  match env.fopen path with
  | none =>
    match format
        (cstr (lit ("Cannot open ".toList ++ root ++ "\\zig\\selected".toList))) [] with
    | none => none
    | some msg => some ([Event.fopen path, Event.stderr msg], Resolved.exit EXIT_FAILURE)
  | some zig_version_fd =>
    let file_size := zig_version_fd.size
    if env.mallocOk 0 = false then
      match format (cstr (lit "Memory allocation failed".toList)) [] with
      | none => none
      | some msg => some ([Event.fopen path, Event.stderr msg], Resolved.exit EXIT_FAILURE)
    else
      let zig_version := malloc (env.junk 0) (file_size + 1)
      let got := zig_version_fd.data.take file_size
      match store zig_version 0 got with
      | none => none
      | some zig_version =>
        if got.length ≠ file_size then
          match format (cstr (lit "File read failed".toList)) [] with
          | none => none
          | some msg => some ([Event.fopen path, Event.stderr msg], Resolved.exit EXIT_FAILURE)
        else
          match store zig_version file_size [NUL] with
          | none => none
          | some zig_version =>
            match strlen zig_version with
            | none => none
            | some n =>
              if n = 0 then
                match format (cstr (lit "You need to select a zig version".toList)) [] with
                | none => none
                | some msg =>
                  some ([Event.fopen path, Event.stderr msg], Resolved.exit EXIT_FAILURE)
              else some ([Event.fopen path], Resolved.version zig_version)

/-- Lines 53–62 of `main` after the allocation check: fill the block
`zig_exe_path` from the install root and the version. -/
def fill_exe_path (root : List Char) (zig_exe_path zig_version : List Char) :
    Option (List Char) :=
  match strcpy zig_exe_path 0 (lit (root ++ "\\zig\\".toList)) with
  | none => none
  | some zig_exe_path =>
    match strcat zig_exe_path zig_version with
    | none => none
    | some zig_exe_path => strcat zig_exe_path (lit "\\zig.exe".toList)

/-- Lines 65–68 of `main`: the size computed for the command line, the loop
running over all of `argv`, `argv[0]` included. -/
def cmdline_len (plen : Nat) : List (List Char) → Option Nat
  | [] => some plen
  | a :: argv =>
    match strlen a with
    | none => none
    | some n => cmdline_len (plen + (n + 1)) argv

/-- The loop of lines 81–86 over the remaining arguments, `str` being the
write offset into `cmdline`. -/
def append_args (cmdline : List Char) (str : Nat) :
    List (List Char) → Option (List Char × Nat)
  | [] => some (cmdline, str)
  | a :: argv =>
    match store cmdline str [' '] with
    | none => none
    | some cmdline =>
      match strcpy cmdline (str + 1) a with
      | none => none
      | some cmdline =>
        match strlen a with
        | none => none
        | some n => append_args cmdline (str + 1 + n) argv

/-- Lines 77–87 of `main`: fill the block `cmdline`. Returns the block and
the index of the last byte written (the terminator). -/
def fill_cmdline (cmdline zig_exe_path : List Char) (argv : List (List Char)) :
    Option (List Char × Nat) :=
  match strcpy cmdline 0 zig_exe_path with
  | none => none
  | some cmdline =>
    match strlen zig_exe_path with
    | none => none
    | some plen =>
      match append_args cmdline plen (argv.drop 1) with
      | none => none
      | some (cmdline, str) =>
        match store cmdline str [NUL] with
        | none => none
        | some cmdline => some (cmdline, str)

/-- Lines 89–114 of `main`: create the child, wait for it and return its
exit code. `tr` is the trace so far. -/
def spawn_and_wait (env : Env) (tr : List Event) (zig_exe_path cmdline : List Char) :
    Option Outcome :=
  let app := cstr zig_exe_path
  let cmd := cstr cmdline
  if env.createProcess app cmd = false then
    match format (cstr (lit "Failed to launch %s\n".toList)) [cmdline] with
    | none => none
    | some msg =>
      some ⟨tr ++ [Event.createProcess app cmd false, Event.stderr msg], EXIT_FAILURE⟩
  else
    let exit_code : Nat := EXIT_FAILURE.toNat
    let exit_code : Nat :=
      match env.getExitCodeProcess.written with
      | none => exit_code
      | some c => c % 2 ^ 32
    some ⟨tr ++ [Event.createProcess app cmd true, Event.waitForSingleObject,
            Event.getExitCodeProcess, Event.closeHandle, Event.closeHandle],
          toInt exit_code⟩

/-- The function `main` (lines 50–115). `argv` holds the argument strings without their
terminators; `argc` is its length. -/
def main (root : List Char) (argv : List (List Char)) (env : Env) : Option Outcome :=
  let argvMem := argv.map lit
  match read_zig_version root env with
  | none => none
  | some (tr, Resolved.exit code) => some ⟨tr, code⟩
  | some (tr, Resolved.version zig_version) =>
    match strlen zig_version with
    | none => none
    | some vlen =>
      if env.mallocOk 1 = false then
        match format (cstr (lit "Memory allocation failed".toList)) [] with
        | none => none
        | some msg => some ⟨tr ++ [Event.stderr msg], EXIT_FAILURE⟩
      else
        let zig_exe_path := malloc (env.junk 1)
          (sizeof (lit (root ++ "\\zig\\".toList)) + vlen + sizeof (lit "\\zig.exe".toList))
        match fill_exe_path root zig_exe_path zig_version with
        | none => none
        | some zig_exe_path =>
          match strlen zig_exe_path with
          | none => none
          | some plen =>
            match cmdline_len plen argvMem with
            | none => none
            | some len =>
              if env.mallocOk 2 = false then
                match format (cstr (lit "Memory allocation failed".toList)) [] with
                | none => none
                | some msg => some ⟨tr ++ [Event.stderr msg], EXIT_FAILURE⟩
              else
                let cmdline := malloc (env.junk 2) len
                match fill_cmdline cmdline zig_exe_path argvMem with
                | none => none
                | some (cmdline, _) => spawn_and_wait env tr zig_exe_path cmdline

/-! ## Values used in the statements -/

/-- The arguments as they are forwarded: each one preceded by one space. -/
def forwarded : List (List Char) → List Char
  | [] => []
  | a :: args => ' ' :: a ++ forwarded args

/-- The number of bytes of the arguments, each counted with one more byte. -/
def args_size : List (List Char) → Nat
  | [] => 0
  | a :: args => (a.length + 1) + args_size args

/-- The texts written to the error stream, in order. -/
def diagnostics : List Event → List (List Char)
  | [] => []
  | Event.stderr text :: tr => text :: diagnostics tr
  | _ :: tr => diagnostics tr

/-- The path of the selection file. -/
def selected_path (root : List Char) : List Char := root ++ "\\zig\\selected".toList

/-- The path of the executable of version `v`. -/
def exe_path (root v : List Char) : List Char :=
  root ++ "\\zig\\".toList ++ v ++ "\\zig.exe".toList

/-- The resolver described by the values it handles instead of by its
memory operations. -/
def resolution (root : List Char) (env : Env) : Option (List Event × Resolved) :=
  let path := cstr (lit (root ++ "\\zig\\selected".toList))
  match env.fopen path with
  | none =>
    match format
        (cstr (lit ("Cannot open ".toList ++ root ++ "\\zig\\selected".toList))) [] with
    | none => none
    | some msg => some ([Event.fopen path, Event.stderr msg], Resolved.exit EXIT_FAILURE)
  | some f =>
    if env.mallocOk 0 = false then
      some ([Event.fopen path, Event.stderr "Memory allocation failed".toList],
        Resolved.exit EXIT_FAILURE)
    else if (f.data.take f.size).length ≠ f.size then
      some ([Event.fopen path, Event.stderr "File read failed".toList],
        Resolved.exit EXIT_FAILURE)
    else if cstr (f.data.take f.size) = [] then
      some ([Event.fopen path, Event.stderr "You need to select a zig version".toList],
        Resolved.exit EXIT_FAILURE)
    else some ([Event.fopen path], Resolved.version (f.data.take f.size ++ [NUL]))

/-- The whole run described by the values it handles instead of by its
memory operations. Without `argv[0]` the block of line 70 is one byte short
for the copy of line 78. -/
def run_value (root : List Char) (argv : List (List Char)) (env : Env) : Option Outcome :=
  match resolution root env with
  | none => none
  | some (tr, Resolved.exit code) => some ⟨tr, code⟩
  | some (tr, Resolved.version zig_version) =>
    if env.mallocOk 1 = false then
      some ⟨tr ++ [Event.stderr "Memory allocation failed".toList], EXIT_FAILURE⟩
    else if env.mallocOk 2 = false then
      some ⟨tr ++ [Event.stderr "Memory allocation failed".toList], EXIT_FAILURE⟩
    else if argv = [] then none
    else
      let app := root ++ "\\zig\\".toList ++ cstr zig_version ++ "\\zig.exe".toList
      let cmd := app ++ forwarded (argv.drop 1)
      if env.createProcess app cmd = false then
        some ⟨tr ++ [Event.createProcess app cmd false,
                Event.stderr ("Failed to launch ".toList ++ cmd ++ "\n".toList)],
              EXIT_FAILURE⟩
      else
        some ⟨tr ++ [Event.createProcess app cmd true, Event.waitForSingleObject,
                Event.getExitCodeProcess, Event.closeHandle, Event.closeHandle],
              toInt (match env.getExitCodeProcess.written with
                     | none => 255
                     | some c => c % 2 ^ 32)⟩

/-- The selection file delivers all its bytes and they hold a non-empty
string: the resolver returns. -/
def Resolves (root : List Char) (env : Env) (f : SelectedFile) : Prop :=
  env.fopen (selected_path root) = some f ∧ env.mallocOk 0 = true
    ∧ (f.data.take f.size).length = f.size ∧ cstr (f.data.take f.size) ≠ []

/-- The eight ways a run of `main` ends, each with its outcome. -/
inductive Run (root : List Char) (argv : List (List Char)) (env : Env) : Outcome → Prop
  | cannot_open (msg : List Char) :
      env.fopen (selected_path root) = none →
      format (cstr (lit ("Cannot open ".toList ++ root ++ "\\zig\\selected".toList))) []
        = some msg →
      Run root argv env ⟨[Event.fopen (selected_path root), Event.stderr msg], 255⟩
  | version_alloc (f : SelectedFile) :
      env.fopen (selected_path root) = some f → env.mallocOk 0 = false →
      Run root argv env
        ⟨[Event.fopen (selected_path root), Event.stderr "Memory allocation failed".toList],
          255⟩
  | read_failed (f : SelectedFile) :
      env.fopen (selected_path root) = some f → env.mallocOk 0 = true →
      (f.data.take f.size).length ≠ f.size →
      Run root argv env
        ⟨[Event.fopen (selected_path root), Event.stderr "File read failed".toList], 255⟩
  | nothing_selected (f : SelectedFile) :
      env.fopen (selected_path root) = some f → env.mallocOk 0 = true →
      (f.data.take f.size).length = f.size → cstr (f.data.take f.size) = [] →
      Run root argv env
        ⟨[Event.fopen (selected_path root),
          Event.stderr "You need to select a zig version".toList], 255⟩
  | path_alloc (f : SelectedFile) :
      Resolves root env f → env.mallocOk 1 = false →
      Run root argv env
        ⟨[Event.fopen (selected_path root), Event.stderr "Memory allocation failed".toList],
          255⟩
  | cmdline_alloc (f : SelectedFile) :
      Resolves root env f → env.mallocOk 1 = true → env.mallocOk 2 = false →
      Run root argv env
        ⟨[Event.fopen (selected_path root), Event.stderr "Memory allocation failed".toList],
          255⟩
  | launch_failed (f : SelectedFile) (app cmd : List Char) :
      Resolves root env f → env.mallocOk 1 = true → env.mallocOk 2 = true →
      app = exe_path root (cstr (f.data.take f.size)) →
      cmd = app ++ forwarded (argv.drop 1) →
      env.createProcess app cmd = false →
      Run root argv env
        ⟨[Event.fopen (selected_path root), Event.createProcess app cmd false,
          Event.stderr ("Failed to launch ".toList ++ cmd ++ "\n".toList)], 255⟩
  | child_ran (f : SelectedFile) (app cmd : List Char) :
      Resolves root env f → env.mallocOk 1 = true → env.mallocOk 2 = true →
      app = exe_path root (cstr (f.data.take f.size)) →
      cmd = app ++ forwarded (argv.drop 1) →
      env.createProcess app cmd = true →
      Run root argv env
        ⟨[Event.fopen (selected_path root), Event.createProcess app cmd true,
          Event.waitForSingleObject, Event.getExitCodeProcess, Event.closeHandle,
          Event.closeHandle],
         toInt (match env.getExitCodeProcess.written with
                | none => 255
                | some c => c % 2 ^ 32)⟩

/-- The run ends on a reported error: it exits with 255, the last thing it
does is write `msg` to the error stream, and `msg` is its only diagnostic. -/
def ReportsAndFails (out : Outcome) (msg : List Char) : Prop :=
  out.code = 255 ∧ out.trace.getLast? = some (Event.stderr msg)
    ∧ diagnostics out.trace = [msg]

/-- The internal failures of a run: the selection file is missing, the
selection is empty, the read is short, an allocation fails, the child cannot
be created, or the status query stores nothing. -/
def InternalFailure (root : List Char) (env : Env) (out : Outcome) : Prop :=
  env.fopen (root ++ "\\zig\\selected".toList) = none
  ∨ (∃ f, env.fopen (root ++ "\\zig\\selected".toList) = some f
      ∧ (f.data.take f.size).length = f.size ∧ cstr (f.data.take f.size) = [])
  ∨ (∃ f, env.fopen (root ++ "\\zig\\selected".toList) = some f
      ∧ (f.data.take f.size).length ≠ f.size)
  ∨ (∃ k, k < 3 ∧ env.mallocOk k = false)
  ∨ (∃ app cmd, Event.createProcess app cmd false ∈ out.trace
      ∧ env.createProcess app cmd = false)
  ∨ (Event.getExitCodeProcess ∈ out.trace ∧ env.getExitCodeProcess.written = none)

/-! ## Concrete runs -/

/-- An install root. -/
def root0 : List Char := "C:\\zup".toList

/-- The invocation `zig build -O release`. -/
def argv0 : List (List Char) :=
  ["zig".toList, "build".toList, "-O".toList, "release".toList]

/-- Version `1.2.3` is selected, every call succeeds and the child exits
with 7. -/
def env0 : Env where
  fopen := fun _ => some ⟨5, "1.2.3".toList⟩
  mallocOk := fun _ => true
  junk := fun n i => if (n + i) % 3 = 0 then NUL else 'x'
  createProcess := fun _ _ => true
  getExitCodeProcess := ⟨true, some 7⟩

/-- The outcome of `zig build -O release` in `env0`. -/
def out0 : Outcome :=
  ⟨[Event.fopen "C:\\zup\\zig\\selected".toList,
    Event.createProcess "C:\\zup\\zig\\1.2.3\\zig.exe".toList
      "C:\\zup\\zig\\1.2.3\\zig.exe build -O release".toList true,
    Event.waitForSingleObject, Event.getExitCodeProcess, Event.closeHandle,
    Event.closeHandle], 7⟩

/-- The environment `env0` except that `CreateProcess` fails. -/
def env_no_exe : Env := { env0 with createProcess := fun _ _ => false }

/-- The outcome of `zig build -O release` in `env_no_exe`. -/
def out_no_exe : Outcome :=
  ⟨[Event.fopen "C:\\zup\\zig\\selected".toList,
    Event.createProcess "C:\\zup\\zig\\1.2.3\\zig.exe".toList
      "C:\\zup\\zig\\1.2.3\\zig.exe build -O release".toList false,
    Event.stderr "Failed to launch C:\\zup\\zig\\1.2.3\\zig.exe build -O release\n".toList],
   255⟩

/-- The environment `env0` except that the status query fails and stores
nothing. -/
def env_no_status : Env := { env0 with getExitCodeProcess := ⟨false, none⟩ }

/-- The outcome of `zig build -O release` in `env_no_status`. -/
def out_no_status : Outcome :=
  ⟨[Event.fopen "C:\\zup\\zig\\selected".toList,
    Event.createProcess "C:\\zup\\zig\\1.2.3\\zig.exe".toList
      "C:\\zup\\zig\\1.2.3\\zig.exe build -O release".toList true,
    Event.waitForSingleObject, Event.getExitCodeProcess, Event.closeHandle,
    Event.closeHandle], 255⟩

/-- A selection file of six bytes whose third byte is the terminator value. -/
def content_nul : List Char := "1.".toList ++ NUL :: "2.3".toList

/-- The environment `env0` with the selection file holding `content_nul`. -/
def env_nul : Env := { env0 with fopen := fun _ => some ⟨6, content_nul⟩ }

/-- The environment `env0` with a selection file of one byte, the terminator
value. -/
def env_nul_first : Env := { env0 with fopen := fun _ => some ⟨1, [NUL]⟩ }

/-- The selection file is empty and no memory can be allocated. -/
def env_no_memory : Env :=
  { env0 with fopen := fun _ => some ⟨0, []⟩, mallocOk := fun _ => false }

/-- The selection file is empty. -/
def env_empty : Env := { env0 with fopen := fun _ => some ⟨0, []⟩ }

/-- There is no selection file. -/
def env_missing : Env := { env0 with fopen := fun _ => none }

/-- An install root whose directory name ends in two percent signs. -/
def root_pct : List Char := "C:\\100%%".toList

/-- The environment `env0` except that the child exits with 255. -/
def env_child_255 : Env := { env0 with getExitCodeProcess := ⟨true, some 255⟩ }

/-- The outcome of `zig build -O release` in `env_child_255`. -/
def out_child_255 : Outcome :=
  ⟨[Event.fopen "C:\\zup\\zig\\selected".toList,
    Event.createProcess "C:\\zup\\zig\\1.2.3\\zig.exe".toList
      "C:\\zup\\zig\\1.2.3\\zig.exe build -O release".toList true,
    Event.waitForSingleObject, Event.getExitCodeProcess, Event.closeHandle,
    Event.closeHandle], 255⟩

/-! ## Facts about C strings and blocks -/

theorem nul_not_mem_cstr (mem : List Char) : NUL ∉ cstr mem := by
  intro h
  have := List.mem_takeWhile_imp h
  simp at this

theorem cstr_append_nul {s : List Char} (h : NUL ∉ s) (rest : List Char) :
    cstr (s ++ NUL :: rest) = s := by
  induction s with
  | nil => simp [cstr, List.takeWhile]
  | cons c s ih =>
    have hc : c ≠ NUL := fun e => h (by simp [e])
    have hs : NUL ∉ s := fun e => h (by simp [e])
    have := ih hs
    simp only [cstr] at this ⊢
    simp [List.takeWhile_cons, hc, this]

theorem cstr_lit {s : List Char} (h : NUL ∉ s) : cstr (lit s) = s := by
  simpa [lit] using cstr_append_nul h []

theorem strlen_append_nul {s : List Char} (h : NUL ∉ s) (rest : List Char) :
    strlen (s ++ NUL :: rest) = some s.length := by
  simp [strlen, cstr_append_nul h]

/-- A block that holds a terminator splits into its string, the terminator
and the rest. -/
theorem exists_split_of_nul_mem {mem : List Char} (h : NUL ∈ mem) :
    ∃ rest, mem = cstr mem ++ NUL :: rest := by
  induction mem with
  | nil => simp at h
  | cons c mem ih =>
    by_cases hc : c = NUL
    · refine ⟨mem, ?_⟩
      simp [cstr, List.takeWhile_cons, hc]
    · have hm : NUL ∈ mem := by
        rcases List.mem_cons.mp h with e | e
        · exact absurd e.symm hc
        · exact e
      obtain ⟨rest, hr⟩ := ih hm
      refine ⟨rest, ?_⟩
      simp only [cstr] at hr ⊢
      rw [List.takeWhile_cons, if_pos (by simpa using hc)]
      simpa using hr

/-- Writing right behind a known prefix. -/
theorem store_append (pre tail bytes : List Char) (h : bytes.length ≤ tail.length) :
    store (pre ++ tail) pre.length bytes = some (pre ++ bytes ++ tail.drop bytes.length) := by
  unfold store
  rw [if_pos (by simp; omega)]
  simp [List.take_append_eq_append_take, List.drop_append_eq_append_drop]

theorem strcpy_append_nul {s : List Char} (h : NUL ∉ s) (dst : List Char) (off : Nat)
    (rest : List Char) :
    strcpy dst off (s ++ NUL :: rest) = store dst off (s ++ [NUL]) := by
  simp [strcpy, strlen_append_nul h]

/-- The call `strcpy` behind a known prefix of the destination. -/
theorem strcpy_append {s : List Char} (h : NUL ∉ s) (pre tail rest : List Char)
    (hlen : s.length + 1 ≤ tail.length) :
    strcpy (pre ++ tail) pre.length (s ++ NUL :: rest)
      = some (pre ++ s ++ NUL :: tail.drop (s.length + 1)) := by
  rw [strcpy_append_nul h, store_append _ _ _ (by simpa using hlen)]
  simp

/-- The call `strcat` onto a destination whose string is known. -/
theorem strcat_append {d s : List Char} (hd : NUL ∉ d) (hs : NUL ∉ s) (tail rest : List Char)
    (hlen : s.length ≤ tail.length) :
    strcat (d ++ NUL :: tail) (s ++ NUL :: rest)
      = some (d ++ s ++ NUL :: tail.drop s.length) := by
  unfold strcat
  rw [strlen_append_nul hd]
  simp only
  rw [strcpy_append hs d (NUL :: tail) rest (by simpa using hlen)]
  simp

/-- A format without `%` is written as it is. -/
theorem format_of_no_percent : ∀ (s : List Char), '%' ∉ s → format s [] = some s
  | [], _ => by simp [format]
  | [c], h => by
    have hc : c ≠ '%' := fun e => h (by simp [e])
    simp [format, hc]
  | c :: d :: s, h => by
    have hc : c ≠ '%' := fun e => h (by simp [e])
    have hs : '%' ∉ d :: s := fun e => h (List.mem_cons_of_mem _ e)
    rw [format, if_neg hc, format_of_no_percent (d :: s) hs]
    rfl

/-! ## The two buffers of `main` -/

theorem nul_not_mem_of_append {s t : List Char} (hs : NUL ∉ s) (ht : NUL ∉ t) :
    NUL ∉ s ++ t := by
  simp [hs, ht]

theorem nul_not_mem_forwarded : ∀ (args : List (List Char)), (∀ a ∈ args, NUL ∉ a) →
    NUL ∉ forwarded args
  | [], _ => by simp [forwarded]
  | a :: args, h => by
    have ha : NUL ∉ a := h a (by simp)
    have ih := nul_not_mem_forwarded args (fun b hb => h b (by simp [hb]))
    have hsp : NUL ≠ ' ' := by decide
    simp [forwarded, ha, ih, hsp]

theorem length_forwarded : ∀ (args : List (List Char)),
    (forwarded args).length = args_size args
  | [] => rfl
  | a :: args => by
    simp [forwarded, args_size, length_forwarded args]
    omega

/-- Lines 60–62 on a block that is large enough: the block then holds the
composed path, its terminator and the untouched rest. -/
theorem fill_exe_path_eq {root v : List Char} (hr : NUL ∉ root) (hv : NUL ∉ v)
    (buf rest : List Char) (hlen : root.length + v.length + 14 ≤ buf.length) :
    ∃ tail, fill_exe_path root buf (v ++ NUL :: rest)
        = some (root ++ "\\zig\\".toList ++ v ++ "\\zig.exe".toList ++ NUL :: tail)
      ∧ root.length + v.length + 14 + tail.length = buf.length := by
  have hz : NUL ∉ "\\zig\\".toList := by decide
  have he : NUL ∉ "\\zig.exe".toList := by decide
  have hrz : NUL ∉ root ++ "\\zig\\".toList := nul_not_mem_of_append hr hz
  have h1 : strcpy buf 0 (lit (root ++ "\\zig\\".toList))
      = some (root ++ "\\zig\\".toList ++ NUL :: buf.drop (root.length + 5 + 1)) := by
    have := strcpy_append hrz [] buf [] (by simp; omega)
    simpa [lit] using this
  have h2 : strcat (root ++ "\\zig\\".toList ++ NUL :: buf.drop (root.length + 5 + 1))
      (v ++ NUL :: rest)
      = some (root ++ "\\zig\\".toList ++ v
          ++ NUL :: (buf.drop (root.length + 5 + 1)).drop v.length) :=
    strcat_append hrz hv _ _ (by simp; omega)
  have h3 : strcat (root ++ "\\zig\\".toList ++ v
          ++ NUL :: (buf.drop (root.length + 5 + 1)).drop v.length) (lit "\\zig.exe".toList)
      = some (root ++ "\\zig\\".toList ++ v ++ "\\zig.exe".toList
          ++ NUL :: ((buf.drop (root.length + 5 + 1)).drop v.length).drop 8) := by
    have := strcat_append (nul_not_mem_of_append hrz hv) he
      ((buf.drop (root.length + 5 + 1)).drop v.length) [] (by simp; omega)
    simpa [lit] using this
  refine ⟨((buf.drop (root.length + 5 + 1)).drop v.length).drop 8, ?_, ?_⟩
  · simp only [fill_exe_path, h1, h2, h3]
  · simp
    omega

/-- Lines 67–68 on proper argument strings: the computed size. -/
theorem cmdline_len_eq : ∀ (argv : List (List Char)) (plen : Nat), (∀ a ∈ argv, NUL ∉ a) →
    cmdline_len plen (argv.map lit) = some (plen + args_size argv)
  | [], plen, _ => by simp [cmdline_len, args_size]
  | a :: argv, plen, h => by
    have ha : NUL ∉ a := h a (by simp)
    have hl : strlen (lit a) = some a.length := by
      simpa [lit] using strlen_append_nul ha []
    have ih := cmdline_len_eq argv (plen + (a.length + 1)) (fun b hb => h b (by simp [hb]))
    simp only [List.map_cons, cmdline_len, hl, ih, args_size]
    congr 1
    omega

/-- The loop of lines 81–86 behind a known prefix, on a block with room for
the arguments and one terminator. -/
theorem append_args_eq : ∀ (args : List (List Char)) (pre tail : List Char),
    (∀ a ∈ args, NUL ∉ a) → args_size args + 1 ≤ tail.length →
    ∃ tail2, append_args (pre ++ tail) pre.length (args.map lit)
        = some (pre ++ forwarded args ++ tail2, pre.length + args_size args)
      ∧ tail2.length + args_size args = tail.length
  | [], pre, tail, _, _ => ⟨tail, by simp [append_args, forwarded, args_size]⟩
  | a :: args, pre, tail, h, hlen => by
    have ha : NUL ∉ a := h a (by simp)
    simp only [args_size] at hlen
    have h1 : store (pre ++ tail) pre.length [' '] = some ((pre ++ [' ']) ++ tail.drop 1) := by
      have := store_append pre tail [' '] (by simp; omega)
      simpa using this
    have h2 : strcpy ((pre ++ [' ']) ++ tail.drop 1) (pre.length + 1) (lit a)
        = some ((pre ++ [' '] ++ a) ++ NUL :: (tail.drop 1).drop (a.length + 1)) := by
      have := strcpy_append ha (pre ++ [' ']) (tail.drop 1) [] (by simp; omega)
      simpa [lit] using this
    have hl : strlen (lit a) = some a.length := by
      simpa [lit] using strlen_append_nul ha []
    obtain ⟨tail2, ih, ihlen⟩ := append_args_eq args (pre ++ [' '] ++ a)
      (NUL :: (tail.drop 1).drop (a.length + 1)) (fun b hb => h b (by simp [hb]))
      (by simp; omega)
    refine ⟨tail2, ?_, ?_⟩
    · have e : (pre ++ [' '] ++ a).length = pre.length + 1 + a.length := by
        simp only [List.length_append, List.length_singleton]
      rw [e] at ih
      simp only [List.map_cons, append_args, h1, h2, hl, ih, forwarded, args_size]
      have e2 : pre.length + (a.length + 1 + args_size args)
          = pre.length + 1 + a.length + args_size args := by omega
      simp [e2]
    · simp at ihlen
      simp only [args_size]
      omega

/-- Lines 77–87 on a block that is large enough: the block then holds the
path, the forwarded arguments and the terminator, which is its last byte
written, at the index returned. -/
theorem fill_cmdline_eq {p : List Char} (hp : NUL ∉ p) (argv : List (List Char))
    (hargv : ∀ a ∈ argv, NUL ∉ a) (buf rest : List Char)
    (hlen : p.length + args_size (argv.drop 1) + 1 ≤ buf.length) :
    ∃ tail, fill_cmdline buf (p ++ NUL :: rest) (argv.map lit)
        = some (p ++ forwarded (argv.drop 1) ++ NUL :: tail,
                p.length + args_size (argv.drop 1))
      ∧ p.length + args_size (argv.drop 1) + 1 + tail.length = buf.length := by
  have hd : (argv.map lit).drop 1 = (argv.drop 1).map lit := (List.map_drop lit argv 1).symm
  have hargs : ∀ a ∈ argv.drop 1, NUL ∉ a := fun a ha => hargv a (List.mem_of_mem_drop ha)
  generalize argv.drop 1 = args at hd hargs hlen ⊢
  have hb : (buf.drop (p.length + 1)).length = buf.length - (p.length + 1) :=
    List.length_drop _ _
  have h1 : strcpy buf 0 (p ++ NUL :: rest) = some (p ++ NUL :: buf.drop (p.length + 1)) := by
    have := strcpy_append hp [] buf rest (by omega)
    simpa using this
  have hl : strlen (p ++ NUL :: rest) = some p.length := strlen_append_nul hp rest
  obtain ⟨tail2, h2, h2len⟩ := append_args_eq args p (NUL :: buf.drop (p.length + 1))
    hargs (by rw [List.length_cons, hb]; omega)
  rw [List.length_cons, hb] at h2len
  have h3 : store (p ++ forwarded args ++ tail2) (p.length + args_size args) [NUL]
      = some (p ++ forwarded args ++ NUL :: tail2.drop 1) := by
    have := store_append (p ++ forwarded args) tail2 [NUL] (by
      rw [List.length_singleton]; omega)
    simpa [length_forwarded] using this
  refine ⟨tail2.drop 1, ?_, ?_⟩
  · simp only [fill_cmdline, h1, hl, hd, h2, h3]
  · rw [List.length_drop]
    omega

/-! ## The diagnostics -/

theorem format_alloc : format (cstr (lit "Memory allocation failed".toList)) []
    = some "Memory allocation failed".toList := by decide

theorem format_read : format (cstr (lit "File read failed".toList)) []
    = some "File read failed".toList := by decide

theorem format_select : format (cstr (lit "You need to select a zig version".toList)) []
    = some "You need to select a zig version".toList := by decide

theorem format_launch (cmdline : List Char) :
    format (cstr (lit "Failed to launch %s\n".toList)) [cmdline]
      = some ("Failed to launch ".toList ++ cstr cmdline ++ "\n".toList) := by
  have e : cstr (lit "Failed to launch %s\n".toList) = "Failed to launch %s\n".toList := by
    decide
  rw [e]
  simp [format]

theorem format_open {root : List Char} (h0 : NUL ∉ root) (hp : '%' ∉ root) :
    format (cstr (lit ("Cannot open ".toList ++ root ++ "\\zig\\selected".toList))) []
      = some ("Cannot open ".toList ++ root ++ "\\zig\\selected".toList) := by
  have h1 : NUL ∉ "Cannot open ".toList := by decide
  have h2 : NUL ∉ "\\zig\\selected".toList := by decide
  have h3 : '%' ∉ "Cannot open ".toList := by decide
  have h4 : '%' ∉ "\\zig\\selected".toList := by decide
  rw [cstr_lit (nul_not_mem_of_append (nul_not_mem_of_append h1 h0) h2)]
  apply format_of_no_percent
  simp [h3, h4, hp]

theorem selected_path_eq {root : List Char} (h0 : NUL ∉ root) :
    cstr (lit (root ++ "\\zig\\selected".toList)) = root ++ "\\zig\\selected".toList := by
  have h2 : NUL ∉ "\\zig\\selected".toList := by decide
  exact cstr_lit (nul_not_mem_of_append h0 h2)

/-! ## The resolver and the run, value by value -/

theorem cstr_append_nul_any (s rest : List Char) : cstr (s ++ NUL :: rest) = cstr s := by
  induction s with
  | nil => simp [cstr, List.takeWhile_cons]
  | cons c s ih =>
    simp only [cstr] at ih ⊢
    by_cases hc : c = NUL
    · simp [List.takeWhile_cons, hc]
    · simp [List.takeWhile_cons, hc, ih]

theorem length_malloc (junk : Nat → Char) (n : Nat) : (malloc junk n).length = n := by
  simp [malloc]

/-- Lines 25–38 when the read delivers `file_size` bytes: the block then
holds the bytes read and the terminator. -/
theorem version_block (junk : Nat → Char) (got : List Char) :
    ∃ blk, store (malloc junk (got.length + 1)) 0 got = some blk
      ∧ store blk got.length [NUL] = some (got ++ [NUL]) := by
  have hl := length_malloc junk (got.length + 1)
  generalize malloc junk (got.length + 1) = buf at hl
  have h1 := store_append [] buf got (by omega)
  have hd : (buf.drop got.length).length = 1 := by
    rw [List.length_drop]
    omega
  refine ⟨got ++ buf.drop got.length, by simpa using h1, ?_⟩
  have h2 := store_append got (buf.drop got.length) [NUL] (by
    rw [List.length_singleton]
    omega)
  have hn : (buf.drop got.length).drop 1 = [] :=
    List.drop_eq_nil_of_le (by omega)
  rw [h2]
  simp only [List.length_singleton, hn, List.append_nil]

/-- The first write of line 32 never leaves the block. -/
theorem read_store_some (junk : Nat → Char) (n : Nat) (data : List Char) :
    ∃ blk, store (malloc junk (n + 1)) 0 (data.take n) = some blk := by
  have := store_append [] (malloc junk (n + 1)) (data.take n) (by
    rw [length_malloc, List.length_take]
    omega)
  exact ⟨_, by simpa using this⟩

theorem strlen_append_nul_any (s : List Char) :
    strlen (s ++ [NUL]) = some (cstr s).length := by
  simp [strlen, cstr_append_nul_any]

theorem read_zig_version_eq (root : List Char) (env : Env) :
    read_zig_version root env = resolution root env := by
  unfold read_zig_version resolution
  simp only
  cases hf : env.fopen (cstr (lit (root ++ "\\zig\\selected".toList))) with
  | none => rfl
  | some f =>
    simp only
    cases hm : env.mallocOk 0 with
    | false => simp only [if_true, format_alloc]
    | true =>
      rw [if_neg (by decide), if_neg (by decide)]
      obtain ⟨blk, hblk⟩ := read_store_some (env.junk 0) f.size f.data
      simp only [hblk]
      by_cases hsz : (f.data.take f.size).length = f.size
      · rw [if_neg (by simpa using hsz), if_neg (by simpa using hsz)]
        generalize f.data.take f.size = got at hblk hsz ⊢
        obtain ⟨blk2, hb1, hb2⟩ := version_block (env.junk 0) got
        rw [hsz] at hb1 hb2
        rw [hblk] at hb1
        injection hb1 with hb1
        subst hb1
        simp only [hb2, strlen_append_nul_any]
        by_cases he : cstr got = []
        · rw [if_pos (by simp [he]), if_pos he, format_select]
        · rw [if_neg (by simpa using he), if_neg he]
      · rw [if_pos hsz, if_pos hsz, format_read]

/-- What the resolver returns is a terminated block, and it has then made
one call, the `fopen`. -/
theorem resolution_version {root : List Char} {env : Env} {tr : List Event}
    {zig_version : List Char}
    (h : resolution root env = some (tr, Resolved.version zig_version)) :
    ∃ f, env.fopen (cstr (lit (root ++ "\\zig\\selected".toList))) = some f
      ∧ env.mallocOk 0 = true
      ∧ (f.data.take f.size).length = f.size
      ∧ cstr (f.data.take f.size) ≠ []
      ∧ zig_version = f.data.take f.size ++ [NUL]
      ∧ tr = [Event.fopen (cstr (lit (root ++ "\\zig\\selected".toList)))] := by
  unfold resolution at h
  simp only at h
  split at h
  · split at h <;> simp at h
  · rename_i f hf
    refine ⟨f, hf, ?_⟩
    split at h
    · simp at h
    · rename_i hm
      split at h
      · simp at h
      · rename_i hsz
        split at h
        · simp at h
        · rename_i he
          simp only [Option.some.injEq, Prod.mk.injEq, Resolved.version.injEq] at h
          refine ⟨by simpa using hm, by simpa using hsz, he, h.2.symm, h.1.symm⟩

theorem args_size_drop_one_lt {argv : List (List Char)} (h : argv ≠ []) :
    args_size (argv.drop 1) + 1 ≤ args_size argv := by
  cases argv with
  | nil => exact absurd rfl h
  | cons a argv =>
    simp only [List.drop_succ_cons, List.drop_zero, args_size]
    omega

/-- The memory operations of `main` produce the values of `run_value`: with
`argv[0]` present they all stay in bounds. -/
theorem main_eq_run_value {root : List Char} {argv : List (List Char)} (env : Env)
    (hroot : NUL ∉ root) (hargv : ∀ a ∈ argv, NUL ∉ a) :
    main root argv env = run_value root argv env := by
  unfold main run_value
  simp only [read_zig_version_eq]
  cases hres : resolution root env with
  | none => rfl
  | some r =>
    obtain ⟨tr, res⟩ := r
    cases res with
    | exit code => rfl
    | version zig_version =>
      obtain ⟨f, -, -, -, -, hzv, -⟩ := resolution_version hres
      generalize f.data.take f.size = got at hzv
      subst hzv
      have hv : NUL ∉ cstr got := nul_not_mem_cstr got
      obtain ⟨rest, hsplit⟩ : ∃ rest, got ++ [NUL] = cstr got ++ NUL :: rest := by
        have := @exists_split_of_nul_mem (got ++ [NUL]) (by simp)
        simpa [cstr_append_nul_any got []] using this
      have hcv : cstr (got ++ [NUL]) = cstr got := cstr_append_nul_any got []
      simp only [strlen_append_nul_any, hcv]
      cases hm1 : env.mallocOk 1 with
      | false => simp only [if_true, format_alloc]
      | true =>
        rw [if_neg (by decide), if_neg (by decide)]
        obtain ⟨tail, hfill, -⟩ := fill_exe_path_eq hroot hv
          (malloc (env.junk 1) (sizeof (lit (root ++ "\\zig\\".toList)) + (cstr got).length
            + sizeof (lit "\\zig.exe".toList))) rest (by
            simp [length_malloc, sizeof, lit]
            omega)
        rw [hsplit, hfill]
        have hz : NUL ∉ "\\zig\\".toList := by decide
        have he : NUL ∉ "\\zig.exe".toList := by decide
        have hp : NUL ∉ root ++ "\\zig\\".toList ++ cstr got ++ "\\zig.exe".toList :=
          nul_not_mem_of_append (nul_not_mem_of_append (nul_not_mem_of_append hroot hz) hv) he
        generalize root ++ "\\zig\\".toList ++ cstr got ++ "\\zig.exe".toList = p at hp ⊢
        simp only [strlen_append_nul hp, cmdline_len_eq argv p.length hargv]
        cases hm2 : env.mallocOk 2 with
        | false => simp only [if_true, format_alloc]
        | true =>
          rw [if_neg (by decide), if_neg (by decide)]
          by_cases hne : argv = []
          · subst hne
            rw [if_pos rfl]
            have hst : store (malloc (env.junk 2) (p.length + args_size [])) 0 (p ++ [NUL])
                = none := by
              unfold store
              rw [if_neg (by simp [length_malloc, args_size])]
            simp only [List.map_nil, fill_cmdline, strcpy_append_nul hp, hst]
          · rw [if_neg hne]
            obtain ⟨tail2, hcmd, -⟩ := fill_cmdline_eq hp argv hargv
              (malloc (env.junk 2) (p.length + args_size argv)) tail (by
                have := args_size_drop_one_lt hne
                simp only [length_malloc]
                omega)
            simp only [hcmd]
            have hc : NUL ∉ p ++ forwarded (argv.drop 1) :=
              nul_not_mem_of_append hp
                (nul_not_mem_forwarded _ (fun a ha => hargv a (List.mem_of_mem_drop ha)))
            unfold spawn_and_wait
            simp only [cstr_append_nul hp, cstr_append_nul hc, format_launch]
            cases hcp : env.createProcess p (p ++ forwarded (argv.drop 1)) with
            | false => simp only [if_true]
            | true =>
              rw [if_neg (by decide), if_neg (by decide)]
              cases env.getExitCodeProcess.written <;> rfl

/-- Every defined run of `main` on proper strings ends in one of the eight
ways. -/
theorem run_of_main {root : List Char} {argv : List (List Char)} {env : Env} {out : Outcome}
    (hroot : NUL ∉ root) (hargv : ∀ a ∈ argv, NUL ∉ a)
    (hrun : main root argv env = some out) : Run root argv env out := by
  rw [main_eq_run_value env hroot hargv] at hrun
  unfold run_value at hrun
  have hpath : cstr (lit (root ++ "\\zig\\selected".toList)) = selected_path root :=
    selected_path_eq hroot
  cases hres : resolution root env with
  | none => rw [hres] at hrun; cases hrun
  | some r =>
    obtain ⟨tr, res⟩ := r
    rw [hres] at hrun
    cases res with
    | exit code =>
      simp only [Option.some.injEq] at hrun
      subst hrun
      unfold resolution at hres
      simp only [hpath] at hres
      split at hres
      · rename_i hf
        split at hres
        · cases hres
        · rename_i msg hmsg
          simp only [Option.some.injEq, Prod.mk.injEq, Resolved.exit.injEq] at hres
          obtain ⟨rfl, rfl⟩ := hres
          exact Run.cannot_open msg hf hmsg
      · rename_i f hf
        split at hres
        · rename_i hm
          simp only [Option.some.injEq, Prod.mk.injEq, Resolved.exit.injEq] at hres
          obtain ⟨rfl, rfl⟩ := hres
          exact Run.version_alloc f hf hm
        · rename_i hm
          have hm : env.mallocOk 0 = true := by simpa using hm
          split at hres
          · rename_i hsz
            simp only [Option.some.injEq, Prod.mk.injEq, Resolved.exit.injEq] at hres
            obtain ⟨rfl, rfl⟩ := hres
            exact Run.read_failed f hf hm hsz
          · rename_i hsz
            have hsz : (f.data.take f.size).length = f.size := by simpa using hsz
            split at hres
            · rename_i he
              simp only [Option.some.injEq, Prod.mk.injEq, Resolved.exit.injEq] at hres
              obtain ⟨rfl, rfl⟩ := hres
              exact Run.nothing_selected f hf hm hsz he
            · simp at hres
    | version zig_version =>
      obtain ⟨f, hf, hm, hsz, he, rfl, rfl⟩ := resolution_version hres
      rw [hpath] at hf
      have hres : Resolves root env f := ⟨hf, hm, hsz, he⟩
      simp only [hpath, cstr_append_nul_any] at hrun
      split at hrun
      · rename_i hm1
        simp only [Option.some.injEq] at hrun
        subst hrun
        exact Run.path_alloc f hres hm1
      · rename_i hm1
        have hm1 : env.mallocOk 1 = true := by simpa using hm1
        split at hrun
        · rename_i hm2
          simp only [Option.some.injEq] at hrun
          subst hrun
          exact Run.cmdline_alloc f hres hm1 hm2
        · rename_i hm2
          have hm2 : env.mallocOk 2 = true := by simpa using hm2
          split at hrun
          · cases hrun
          · split at hrun
            · rename_i hcp
              simp only [Option.some.injEq] at hrun
              subst hrun
              exact Run.launch_failed f _ _ hres hm1 hm2 rfl rfl hcp
            · rename_i hcp
              have hcp : env.createProcess
                  (root ++ "\\zig\\".toList ++ cstr (f.data.take f.size)
                    ++ "\\zig.exe".toList)
                  (root ++ "\\zig\\".toList ++ cstr (f.data.take f.size)
                    ++ "\\zig.exe".toList ++ forwarded (argv.drop 1)) = true := by
                simpa using hcp
              simp only [Option.some.injEq] at hrun
              subst hrun
              exact Run.child_ran f _ _ hres hm1 hm2 rfl rfl hcp

/-- When the selection resolves, the resolver returns the block with the
delivered bytes and the terminator. -/
theorem read_zig_version_of_resolves {root : List Char} {env : Env} {f : SelectedFile}
    (hroot : NUL ∉ root) (h : Resolves root env f) :
    read_zig_version root env
      = some ([Event.fopen (selected_path root)],
          Resolved.version (f.data.take f.size ++ [NUL])) := by
  obtain ⟨hf, hm, hsz, he⟩ := h
  rw [read_zig_version_eq]
  unfold resolution
  simp only [selected_path_eq hroot]
  unfold selected_path at hf
  simp only [hf]
  rw [if_neg (by simp [hm]), if_neg (by simp [hsz]), if_neg he]
  rfl

/-- Once the resolver has returned and both blocks are allocated, `main`
with `argv[0]` present reaches `CreateProcess`, with the composed path and
the path followed by the forwarded arguments. -/
theorem main_spawns {root : List Char} {argv : List (List Char)} {env : Env}
    {tr : List Event} {blk : List Char}
    (hroot : NUL ∉ root) (hargc : 1 ≤ argv.length) (hargv : ∀ a ∈ argv, NUL ∉ a)
    (hres : read_zig_version root env = some (tr, Resolved.version blk))
    (hm1 : env.mallocOk 1 = true) (hm2 : env.mallocOk 2 = true) :
    ∃ out ok, main root argv env = some out
      ∧ Event.createProcess (root ++ "\\zig\\".toList ++ cstr blk ++ "\\zig.exe".toList)
          (root ++ "\\zig\\".toList ++ cstr blk ++ "\\zig.exe".toList
            ++ forwarded (argv.drop 1)) ok ∈ out.trace := by
  have hne : argv ≠ [] := by
    intro e
    simp [e] at hargc
  rw [main_eq_run_value env hroot hargv]
  unfold run_value
  rw [read_zig_version_eq] at hres
  rw [hres]
  simp only
  rw [if_neg (by simp [hm1]), if_neg (by simp [hm2]), if_neg hne]
  split
  · exact ⟨_, false, rfl, by simp⟩
  · exact ⟨_, true, rfl, by simp⟩

theorem exitStatus_toInt (c : Nat) : exitStatus (toInt c) = c % 2 ^ 32 := by
  unfold exitStatus toInt
  split <;> omega

theorem toInt_emod (c : Nat) : toInt c % 2 ^ 32 = ((c % 2 ^ 32 : Nat) : Int) := by
  unfold toInt
  split <;> omega

theorem toInt_of_lt {c : Nat} (h : c < 2 ^ 31) : toInt c = (c : Int) := by
  unfold toInt
  have : c % 2 ^ 32 = c := Nat.mod_eq_of_lt (by omega)
  rw [this, if_pos h]

/-- Without `argv[0]` the terminator copied on line 78 falls one byte behind
the block of line 70: the run is undefined. -/
theorem main_undefined_without_argv0 : main root0 [] env0 = none := by
  decide

/-! ## The claims -/

/-- C1. Command-line composition: with `argc ≥ 1`, lines 65–87 fill the
block of the size they computed with the executable path `p` followed, for
each of `argv[1]`, …, `argv[argc-1]` in order, by one space and the argument
verbatim, and nothing else (`argv[0]` does not appear); whenever `main`
calls `CreateProcess`, the command line it passes is the application name
followed by exactly these forwarded arguments; and `main` does call it, with
the composed path as application name, once the resolver has returned and
the two blocks are allocated. -/
theorem command_line_composition (root : List Char) (argv : List (List Char))
    (hroot : NUL ∉ root) (hargc : 1 ≤ argv.length) (hargv : ∀ a ∈ argv, NUL ∉ a) :
    (∀ (p rest : List Char) (junk : Nat → Char), NUL ∉ p →
      ∃ len blk str, cmdline_len p.length (argv.map lit) = some len
        ∧ fill_cmdline (malloc junk len) (p ++ NUL :: rest) (argv.map lit) = some (blk, str)
        ∧ cstr blk = p ++ forwarded (argv.drop 1))
    ∧ (∀ (env : Env) (out : Outcome) (app cmd : List Char) (ok : Bool),
        main root argv env = some out → Event.createProcess app cmd ok ∈ out.trace →
        cmd = app ++ forwarded (argv.drop 1))
    ∧ (∀ (env : Env) (tr : List Event) (blk : List Char),
        read_zig_version root env = some (tr, Resolved.version blk) →
        env.mallocOk 1 = true → env.mallocOk 2 = true →
        ∃ out ok, main root argv env = some out
          ∧ Event.createProcess (root ++ "\\zig\\".toList ++ cstr blk ++ "\\zig.exe".toList)
              (root ++ "\\zig\\".toList ++ cstr blk ++ "\\zig.exe".toList
                ++ forwarded (argv.drop 1)) ok ∈ out.trace) := by
  have hne : argv ≠ [] := by
    intro e
    simp [e] at hargc
  refine ⟨?_, ?_, fun env tr blk hres hm1 hm2 => main_spawns hroot hargc hargv hres hm1 hm2⟩
  · intro p rest junk hp
    obtain ⟨tail, hfill, -⟩ := fill_cmdline_eq hp argv hargv
      (malloc junk (p.length + args_size argv)) rest (by
        have := args_size_drop_one_lt hne
        simp only [length_malloc]
        omega)
    refine ⟨_, _, _, cmdline_len_eq argv p.length hargv, hfill, ?_⟩
    exact cstr_append_nul (nul_not_mem_of_append hp
      (nul_not_mem_forwarded _ (fun a ha => hargv a (List.mem_of_mem_drop ha)))) tail
  · intro env out app cmd ok hrun hmem
    have hr := run_of_main hroot hargv hrun
    cases hr with
    | launch_failed f app2 cmd2 _ _ _ happ hcmd _ =>
      simp at hmem
      obtain ⟨rfl, rfl, -⟩ := hmem
      exact hcmd
    | child_ran f app2 cmd2 _ _ _ happ hcmd _ =>
      simp at hmem
      obtain ⟨rfl, rfl, -⟩ := hmem
      exact hcmd
    | _ => simp at hmem

/-- C1 at `zig build -O release`: the command line passed to the spawn call
is the path followed by ` build -O release`. -/
theorem command_line_composition_witness :
    main root0 argv0 env0 = some out0
    ∧ "C:\\zup\\zig\\1.2.3\\zig.exe build -O release".toList
        = "C:\\zup\\zig\\1.2.3\\zig.exe".toList ++ " build -O release".toList :=
  ⟨by decide,
   (command_line_composition root0 argv0 (by decide) (by decide) (by decide)).2.1 env0 out0
      "C:\\zup\\zig\\1.2.3\\zig.exe".toList
      "C:\\zup\\zig\\1.2.3\\zig.exe build -O release".toList true (by decide) (by decide)⟩

/-- C6. Executable-path composition: lines 53–62 fill the block they
allocated with the install root, `\zig\`, the version unchanged and
`\zig.exe`, in this order; in every run the one file opened is the install
root followed by `\zig\selected`, and whenever `main` calls `CreateProcess`
the application name is this composed path for the version the resolver
returned, and it is the prefix of the command line; and `main` does call it
with this path once the resolver has returned and the two blocks are
allocated. -/
theorem executable_path_composition (root : List Char) (hroot : NUL ∉ root) :
    (∀ (v rest : List Char) (junk : Nat → Char), NUL ∉ v →
      ∃ blk, fill_exe_path root
          (malloc junk (sizeof (lit (root ++ "\\zig\\".toList)) + v.length
            + sizeof (lit "\\zig.exe".toList))) (v ++ NUL :: rest) = some blk
        ∧ cstr blk = root ++ "\\zig\\".toList ++ v ++ "\\zig.exe".toList)
    ∧ (∀ (argv : List (List Char)) (env : Env) (out : Outcome),
        (∀ a ∈ argv, NUL ∉ a) → main root argv env = some out →
        (∃ rest, out.trace = Event.fopen (root ++ "\\zig\\selected".toList) :: rest
          ∧ ∀ path, Event.fopen path ∉ rest)
        ∧ ∀ (app cmd : List Char) (ok : Bool), Event.createProcess app cmd ok ∈ out.trace →
            ∃ tr blk, read_zig_version root env = some (tr, Resolved.version blk)
              ∧ app = root ++ "\\zig\\".toList ++ cstr blk ++ "\\zig.exe".toList
              ∧ app <+: cmd)
    ∧ (∀ (argv : List (List Char)) (env : Env) (tr : List Event) (blk : List Char),
        1 ≤ argv.length → (∀ a ∈ argv, NUL ∉ a) →
        read_zig_version root env = some (tr, Resolved.version blk) →
        env.mallocOk 1 = true → env.mallocOk 2 = true →
        ∃ out cmd ok, main root argv env = some out
          ∧ Event.createProcess (root ++ "\\zig\\".toList ++ cstr blk ++ "\\zig.exe".toList)
              cmd ok ∈ out.trace) := by
  have hz : NUL ∉ "\\zig\\".toList := by decide
  have he : NUL ∉ "\\zig.exe".toList := by decide
  refine ⟨?_, ?_, ?_⟩
  rotate_left 2
  · intro argv env tr blk hargc hargv hres hm1 hm2
    obtain ⟨out, ok, hrun, hmem⟩ := main_spawns hroot hargc hargv hres hm1 hm2
    exact ⟨out, _, ok, hrun, hmem⟩
  · intro v rest junk hv
    obtain ⟨tail, hfill, -⟩ := fill_exe_path_eq hroot hv
      (malloc junk (sizeof (lit (root ++ "\\zig\\".toList)) + v.length
        + sizeof (lit "\\zig.exe".toList))) rest (by
        simp [length_malloc, sizeof, lit]
        omega)
    refine ⟨_, hfill, ?_⟩
    exact cstr_append_nul
      (nul_not_mem_of_append (nul_not_mem_of_append (nul_not_mem_of_append hroot hz) hv) he)
      tail
  · intro argv env out hargv hrun
    have hr := run_of_main hroot hargv hrun
    constructor
    · cases hr <;> exact ⟨_, rfl, by simp⟩
    · intro app cmd ok hmem
      cases hr with
      | launch_failed f app2 cmd2 hres _ _ happ hcmd _ =>
        simp at hmem
        obtain ⟨rfl, rfl, -⟩ := hmem
        refine ⟨_, _, read_zig_version_of_resolves hroot hres, ?_, ?_⟩
        · rw [happ, cstr_append_nul_any]
          rfl
        · rw [hcmd]
          exact List.prefix_append _ _
      | child_ran f app2 cmd2 hres _ _ happ hcmd _ =>
        simp at hmem
        obtain ⟨rfl, rfl, -⟩ := hmem
        refine ⟨_, _, read_zig_version_of_resolves hroot hres, ?_, ?_⟩
        · rw [happ, cstr_append_nul_any]
          rfl
        · rw [hcmd]
          exact List.prefix_append _ _
      | _ => simp at hmem

/-- C6 at version `1.2.3` under the root `C:\zup`: the application name is
`C:\zup\zig\1.2.3\zig.exe` and the file opened is `C:\zup\zig\selected`. -/
theorem executable_path_composition_witness :
    (∃ blk, fill_exe_path root0
        (malloc (fun _ => 'x') (sizeof (lit (root0 ++ "\\zig\\".toList))
          + "1.2.3".toList.length + sizeof (lit "\\zig.exe".toList)))
        ("1.2.3".toList ++ NUL :: []) = some blk
      ∧ cstr blk = root0 ++ "\\zig\\".toList ++ "1.2.3".toList ++ "\\zig.exe".toList)
    ∧ main root0 argv0 env0 = some out0
    ∧ ∃ rest, out0.trace = Event.fopen "C:\\zup\\zig\\selected".toList :: rest
          ∧ ∀ path, Event.fopen path ∉ rest :=
  ⟨(executable_path_composition root0 (by decide)).1 "1.2.3".toList [] (fun _ => 'x')
     (by decide),
   by decide,
   ((executable_path_composition root0 (by decide)).2.1 argv0 env0 out0 (by decide)
      (by decide)).1⟩

/-- C10. Both buffers are large enough: with `argc ≥ 1` the size computed
for the command line is the length of `p` plus, for every argument `argv[0]`
included, its length plus one; the writes of lines 77–87 all fall inside a
block of that size, the last byte written (the terminator) being at index
length of `p` plus the lengths plus one of `argv[1]`, …; so the bytes written
and the length of `argv[0]` add up to the size exactly. The writes of lines
60–62 fall inside the block allocated on line 53, which is one byte longer
than the path with its terminator. And once the resolver has returned, the
run of `main` performs no access outside a block. -/
theorem buffers_large_enough (root : List Char) (argv : List (List Char))
    (hroot : NUL ∉ root) (hargc : 1 ≤ argv.length) (hargv : ∀ a ∈ argv, NUL ∉ a) :
    (∀ (p rest : List Char) (junk : Nat → Char), NUL ∉ p →
      ∃ len blk str, cmdline_len p.length (argv.map lit) = some len
        ∧ len = p.length + args_size argv
        ∧ fill_cmdline (malloc junk len) (p ++ NUL :: rest) (argv.map lit) = some (blk, str)
        ∧ blk.length = len
        ∧ str = p.length + args_size (argv.drop 1)
        ∧ str + 1 ≤ len
        ∧ ∀ a0 args, argv = a0 :: args → str + 1 + a0.length = len)
    ∧ (∀ (v rest : List Char) (junk : Nat → Char), NUL ∉ v →
      ∃ blk plen, fill_exe_path root
          (malloc junk (sizeof (lit (root ++ "\\zig\\".toList)) + v.length
            + sizeof (lit "\\zig.exe".toList))) (v ++ NUL :: rest) = some blk
        ∧ strlen blk = some plen
        ∧ plen = root.length + 5 + v.length + 8
        ∧ plen + 1 + 1 = sizeof (lit (root ++ "\\zig\\".toList)) + v.length
            + sizeof (lit "\\zig.exe".toList)
        ∧ blk.length = plen + 1 + 1)
    ∧ (∀ (env : Env) (tr : List Event) (blk : List Char),
        read_zig_version root env = some (tr, Resolved.version blk) →
        ∃ out, main root argv env = some out) := by
  have hne : argv ≠ [] := by
    intro e
    simp [e] at hargc
  have hz : NUL ∉ "\\zig\\".toList := by decide
  have he : NUL ∉ "\\zig.exe".toList := by decide
  refine ⟨?_, ?_, ?_⟩
  · intro p rest junk hp
    have hlt := args_size_drop_one_lt hne
    obtain ⟨tail, hfill, hlen⟩ := fill_cmdline_eq hp argv hargv
      (malloc junk (p.length + args_size argv)) rest (by
        simp only [length_malloc]
        omega)
    refine ⟨_, _, _, cmdline_len_eq argv p.length hargv, rfl, hfill, ?_, rfl, by omega, ?_⟩
    · simp only [length_malloc] at hlen
      simp only [List.length_append, List.length_cons, length_forwarded]
      omega
    · intro a0 args e
      subst e
      simp only [List.drop_succ_cons, List.drop_zero, args_size]
      omega
  · intro v rest junk hv
    obtain ⟨tail, hfill, hlen⟩ := fill_exe_path_eq hroot hv
      (malloc junk (sizeof (lit (root ++ "\\zig\\".toList)) + v.length
        + sizeof (lit "\\zig.exe".toList))) rest (by
        simp [length_malloc, sizeof, lit]
        omega)
    have hp : NUL ∉ root ++ "\\zig\\".toList ++ v ++ "\\zig.exe".toList :=
      nul_not_mem_of_append (nul_not_mem_of_append (nul_not_mem_of_append hroot hz) hv) he
    refine ⟨_, _, hfill, strlen_append_nul hp tail, ?_, ?_, ?_⟩
    · simp
      omega
    · simp [sizeof, lit]
      omega
    · simp [length_malloc, sizeof, lit] at hlen
      simp
      omega
  · intro env tr blk hres
    rw [main_eq_run_value env hroot hargv]
    unfold run_value
    rw [read_zig_version_eq] at hres
    rw [hres]
    simp only
    split
    · exact ⟨_, rfl⟩
    · split
      · exact ⟨_, rfl⟩
      · split <;> exact ⟨_, rfl⟩

/-- C10 at `zig build -O release` with the path `C:\zup\zig\1.2.3\zig.exe`
(24 bytes): the size computed is 45, the terminator is written at index 41,
and the 3 bytes left over are the length of `argv[0]`. -/
theorem buffers_large_enough_witness :
    ∃ len blk str,
      cmdline_len 24 (argv0.map lit) = some len
        ∧ len = 24 + args_size argv0
        ∧ fill_cmdline (malloc (fun _ => 'x') len)
            ("C:\\zup\\zig\\1.2.3\\zig.exe".toList ++ NUL :: []) (argv0.map lit)
            = some (blk, str)
        ∧ blk.length = len
        ∧ str = 24 + args_size (argv0.drop 1)
        ∧ str + 1 ≤ len
        ∧ ∀ a0 args, argv0 = a0 :: args → str + 1 + a0.length = len :=
  (buffers_large_enough root0 argv0 (by decide) (by decide) (by decide)).1
    "C:\\zup\\zig\\1.2.3\\zig.exe".toList [] (fun _ => 'x') (by decide)

/-- C2. Exit-code propagation: in every run in which the child process is
created (so the selection was resolved) and `GetExitCodeProcess` succeeds and
reports the 32-bit code `c`, `main` returns `c` converted to `int`: the same
value modulo 2^32, so the exit status of the launcher is `c`, and the
returned value is `c` itself below 2^31. -/
theorem exit_code_propagation (root : List Char) (argv : List (List Char)) (env : Env)
    (out : Outcome) (app cmd : List Char) (c : Nat)
    (hroot : NUL ∉ root) (hargv : ∀ a ∈ argv, NUL ∉ a)
    (hrun : main root argv env = some out)
    (hchild : Event.createProcess app cmd true ∈ out.trace)
    (hq : env.getExitCodeProcess = ⟨true, some c⟩) (hc : c < 2 ^ 32) :
    out.code = toInt c ∧ exitStatus out.code = c ∧ out.code % 2 ^ 32 = (c : Int)
      ∧ (c < 2 ^ 31 → out.code = (c : Int)) := by
  have hr := run_of_main hroot hargv hrun
  have hmod : c % 2 ^ 32 = c := Nat.mod_eq_of_lt hc
  cases hr with
  | child_ran f app2 cmd2 _ _ _ _ _ _ =>
    simp only [hq]
    rw [hmod]
    refine ⟨rfl, ?_, ?_, fun h => toInt_of_lt h⟩
    · rw [exitStatus_toInt, hmod]
    · rw [toInt_emod, hmod]
  | _ => simp at hchild

/-- C2 for a child that exits with 7: the launcher returns 7. -/
theorem exit_code_propagation_witness :
    main root0 argv0 env0 = some out0
    ∧ out0.code = toInt 7 ∧ exitStatus out0.code = 7 ∧ out0.code % 2 ^ 32 = ((7 : Nat) : Int)
      ∧ (7 < 2 ^ 31 → out0.code = ((7 : Nat) : Int)) :=
  ⟨by decide,
   exit_code_propagation root0 argv0 env0 out0 "C:\\zup\\zig\\1.2.3\\zig.exe".toList
     "C:\\zup\\zig\\1.2.3\\zig.exe build -O release".toList 7 (by decide) (by decide)
     (by decide) (by decide) rfl (by decide)⟩

/-- C5. Launch failure: in every run in which the selection resolves but
`CreateProcess` fails, `main` returns 255, the last thing it does is write
`Failed to launch `, the complete command line it attempted (the executable
path followed by the forwarded arguments) and a newline to the error stream,
and neither `WaitForSingleObject` nor `GetExitCodeProcess` is called. -/
theorem launch_failure (root : List Char) (argv : List (List Char)) (env : Env)
    (out : Outcome) (app cmd : List Char)
    (hroot : NUL ∉ root) (hargv : ∀ a ∈ argv, NUL ∉ a)
    (hrun : main root argv env = some out)
    (hfail : Event.createProcess app cmd false ∈ out.trace) :
    out.code = 255
      ∧ out.trace = [Event.fopen (root ++ "\\zig\\selected".toList),
          Event.createProcess app cmd false,
          Event.stderr ("Failed to launch ".toList ++ cmd ++ "\n".toList)]
      ∧ cmd = app ++ forwarded (argv.drop 1)
      ∧ (∃ v, v ≠ [] ∧ app = root ++ "\\zig\\".toList ++ v ++ "\\zig.exe".toList)
      ∧ Event.waitForSingleObject ∉ out.trace
      ∧ Event.getExitCodeProcess ∉ out.trace := by
  have hr := run_of_main hroot hargv hrun
  cases hr with
  | launch_failed f app2 cmd2 hres _ _ happ hcmd _ =>
    simp at hfail
    obtain ⟨rfl, rfl⟩ := hfail
    refine ⟨rfl, rfl, hcmd, ⟨_, hres.2.2.2, happ⟩, by simp, by simp⟩
  | _ => simp at hfail

/-- C5 when no executable can be started for the selected `1.2.3`: exit code
255 and the diagnostic `Failed to launch C:\zup\zig\1.2.3\zig.exe build -O
release`. -/
theorem launch_failure_witness :
    main root0 argv0 env_no_exe = some out_no_exe
    ∧ out_no_exe.code = 255
    ∧ out_no_exe.trace = [Event.fopen (root0 ++ "\\zig\\selected".toList),
          Event.createProcess "C:\\zup\\zig\\1.2.3\\zig.exe".toList
            "C:\\zup\\zig\\1.2.3\\zig.exe build -O release".toList false,
          Event.stderr ("Failed to launch ".toList
            ++ "C:\\zup\\zig\\1.2.3\\zig.exe build -O release".toList ++ "\n".toList)]
    ∧ "C:\\zup\\zig\\1.2.3\\zig.exe build -O release".toList
        = "C:\\zup\\zig\\1.2.3\\zig.exe".toList ++ forwarded (argv0.drop 1)
    ∧ (∃ v, v ≠ [] ∧ "C:\\zup\\zig\\1.2.3\\zig.exe".toList
        = root0 ++ "\\zig\\".toList ++ v ++ "\\zig.exe".toList)
    ∧ Event.waitForSingleObject ∉ out_no_exe.trace
    ∧ Event.getExitCodeProcess ∉ out_no_exe.trace :=
  ⟨by decide,
   launch_failure root0 argv0 env_no_exe out_no_exe "C:\\zup\\zig\\1.2.3\\zig.exe".toList
     "C:\\zup\\zig\\1.2.3\\zig.exe build -O release".toList (by decide) (by decide)
     (by decide) (by decide)⟩

/-- C7. Status-query failure: in every run in which the child process is
created and waited for but `GetExitCodeProcess` fails and leaves its output
untouched, the value `main` returns, and so the exit status of the launcher,
is 255. -/
theorem status_query_failure (root : List Char) (argv : List (List Char)) (env : Env)
    (out : Outcome) (app cmd : List Char)
    (hroot : NUL ∉ root) (hargv : ∀ a ∈ argv, NUL ∉ a)
    (hrun : main root argv env = some out)
    (hchild : Event.createProcess app cmd true ∈ out.trace)
    (hq : env.getExitCodeProcess = ⟨false, none⟩) :
    Event.waitForSingleObject ∈ out.trace ∧ Event.getExitCodeProcess ∈ out.trace
      ∧ out.code = 255 ∧ exitStatus out.code = 255 := by
  have hr := run_of_main hroot hargv hrun
  cases hr with
  | child_ran f app2 cmd2 _ _ _ _ _ _ =>
    simp only [hq]
    refine ⟨by simp, by simp, by decide, by decide⟩
  | _ => simp at hchild

/-- C7 on a run whose status query fails: the launcher returns 255. -/
theorem status_query_failure_witness :
    main root0 argv0 env_no_status = some out_no_status
    ∧ Event.waitForSingleObject ∈ out_no_status.trace
    ∧ Event.getExitCodeProcess ∈ out_no_status.trace
    ∧ out_no_status.code = 255 ∧ exitStatus out_no_status.code = 255 :=
  ⟨by decide,
   status_query_failure root0 argv0 env_no_status out_no_status
     "C:\\zup\\zig\\1.2.3\\zig.exe".toList
     "C:\\zup\\zig\\1.2.3\\zig.exe build -O release".toList (by decide) (by decide)
     (by decide) (by decide) rfl⟩

/-- C3 as stated fails on a file that holds a NUL byte: the file is opened,
its six bytes are all read, and the string returned is `1.`, the bytes
before the NUL, not the content; a file whose only byte is NUL is not empty
and is rejected with exit code 255. -/
theorem selection_pass_through_counterexample :
    content_nul ≠ []
    ∧ read_zig_version root0 env_nul
        = some ([Event.fopen "C:\\zup\\zig\\selected".toList],
            Resolved.version (content_nul ++ [NUL]))
    ∧ cstr (content_nul ++ [NUL]) = "1.".toList
    ∧ cstr (content_nul ++ [NUL]) ≠ content_nul
    ∧ read_zig_version root0 env_nul_first
        = some ([Event.fopen "C:\\zup\\zig\\selected".toList,
                 Event.stderr "You need to select a zig version".toList],
            Resolved.exit 255) := by
  decide

/-- C3, amended. For every selection file that can be opened and is read in
full, if the buffer is allocated and the content has a non-empty part before
its first NUL byte, `read_zig_version` returns, after the one call of
`fopen`, a block whose string is that part of the content; so content without
NUL byte is returned exactly, byte for byte, with no trimming, truncation or
validation. -/
theorem selection_pass_through (root : List Char) (env : Env) (f : SelectedFile)
    (hroot : NUL ∉ root)
    (hopen : env.fopen (root ++ "\\zig\\selected".toList) = some f)
    (halloc : env.mallocOk 0 = true) (hread : f.size = f.data.length)
    (hne : cstr f.data ≠ []) :
    ∃ blk, read_zig_version root env
        = some ([Event.fopen (root ++ "\\zig\\selected".toList)], Resolved.version blk)
      ∧ cstr blk = cstr f.data
      ∧ (NUL ∉ f.data → cstr blk = f.data) := by
  have htake : f.data.take f.size = f.data := by
    rw [hread]
    exact List.take_length f.data
  have hres : Resolves root env f := by
    refine ⟨hopen, halloc, ?_, ?_⟩
    · rw [htake, hread]
    · rw [htake]
      exact hne
  refine ⟨_, read_zig_version_of_resolves hroot hres, ?_, ?_⟩
  · rw [htake, cstr_append_nul_any]
  · intro hnul
    rw [htake]
    exact cstr_append_nul hnul []

/-- C3 on a file containing exactly `1.2.3`: the result is `1.2.3`. -/
theorem selection_pass_through_witness :
    ∃ blk, read_zig_version root0 env0
        = some ([Event.fopen (root0 ++ "\\zig\\selected".toList)], Resolved.version blk)
      ∧ cstr blk = cstr "1.2.3".toList
      ∧ (NUL ∉ "1.2.3".toList → cstr blk = "1.2.3".toList) :=
  selection_pass_through root0 env0 ⟨5, "1.2.3".toList⟩ (by decide) rfl rfl (by decide)
    (by decide)

/-- C4 as stated fails in two runs. When the selection file is empty and
the one-byte buffer of line 25 cannot be allocated, the run ends with exit
code 255 and without child, but its only diagnostic is `Memory allocation
failed`, which does not mention the selection of a version. When the install
root is `C:\100%%` and the selection file `C:\100%%\zig\selected` cannot be
opened, the path is part of the format string of line 17, so the diagnostic
is `Cannot open C:\100%\zig\selected`, which does not contain the path. -/
theorem resolver_fails_closed_counterexample :
    main root0 argv0 env_no_memory
        = some ⟨[Event.fopen "C:\\zup\\zig\\selected".toList,
                 Event.stderr "Memory allocation failed".toList], 255⟩
    ∧ decide ("select".toList <:+: "Memory allocation failed".toList) = false
    ∧ decide ("version".toList <:+: "Memory allocation failed".toList) = false
    ∧ main root_pct argv0 env_missing
        = some ⟨[Event.fopen "C:\\100%%\\zig\\selected".toList,
                 Event.stderr "Cannot open C:\\100%\\zig\\selected".toList], 255⟩
    ∧ decide ("C:\\100%%\\zig\\selected".toList
        <:+: "Cannot open C:\\100%\\zig\\selected".toList) = false := by
  decide

/-- C4, amended. In every run in which the selection file cannot be opened
(the install root holding no `%`), or is opened and has zero length, the
program ends with exit code 255 after exactly two calls, the `fopen` and one
diagnostic written to the error stream, so `CreateProcess` is never reached.
The diagnostic is `Cannot open ` followed by the path of the selection file
when it cannot be opened; it is `You need to select a zig version` when the
file is empty and the buffer of line 25 is allocated, and `Memory allocation
failed` when that allocation fails. -/
theorem resolver_fails_closed (root : List Char) (argv : List (List Char)) (env : Env)
    (hroot : NUL ∉ root)
    (hsel : (env.fopen (root ++ "\\zig\\selected".toList) = none ∧ '%' ∉ root)
      ∨ ∃ f, env.fopen (root ++ "\\zig\\selected".toList) = some f ∧ f.size = 0) :
    ∃ out msg, main root argv env = some out
      ∧ out.code = 255
      ∧ out.trace = [Event.fopen (root ++ "\\zig\\selected".toList), Event.stderr msg]
      ∧ (∀ app cmd ok, Event.createProcess app cmd ok ∉ out.trace)
      ∧ (env.fopen (root ++ "\\zig\\selected".toList) = none →
          msg = "Cannot open ".toList ++ root ++ "\\zig\\selected".toList)
      ∧ (env.fopen (root ++ "\\zig\\selected".toList) ≠ none → env.mallocOk 0 = true →
          msg = "You need to select a zig version".toList)
      ∧ (env.fopen (root ++ "\\zig\\selected".toList) ≠ none → env.mallocOk 0 = false →
          msg = "Memory allocation failed".toList) := by
  unfold main
  rw [read_zig_version_eq]
  unfold resolution
  simp only [selected_path_eq hroot]
  rcases hsel with ⟨hnone, hpct⟩ | ⟨f, hf, hsize⟩
  · simp only [hnone, format_open hroot hpct]
    exact ⟨_, _, rfl, rfl, rfl, by simp, fun _ => rfl, fun h => absurd rfl h,
      fun h => absurd rfl h⟩
  · simp only [hf, hsize, List.take_zero, List.length_nil]
    cases hm : env.mallocOk 0 with
    | false =>
      simp only [if_true]
      exact ⟨_, _, rfl, rfl, rfl, by simp, by simp, by simp, fun _ _ => rfl⟩
    | true =>
      have hc : cstr [] = [] := rfl
      rw [if_neg (by decide), if_neg (by simp), if_pos hc]
      exact ⟨_, _, rfl, rfl, rfl, by simp, by simp, fun _ _ => rfl, by simp⟩

/-- C4 on an empty selection file: exit code 255, the diagnostic `You need
to select a zig version`, no child. -/
theorem resolver_fails_closed_witness :
    ∃ out msg, main root0 argv0 env_empty = some out
      ∧ out.code = 255
      ∧ out.trace = [Event.fopen (root0 ++ "\\zig\\selected".toList), Event.stderr msg]
      ∧ (∀ app cmd ok, Event.createProcess app cmd ok ∉ out.trace)
      ∧ (env_empty.fopen (root0 ++ "\\zig\\selected".toList) = none →
          msg = "Cannot open ".toList ++ root0 ++ "\\zig\\selected".toList)
      ∧ (env_empty.fopen (root0 ++ "\\zig\\selected".toList) ≠ none →
          env_empty.mallocOk 0 = true → msg = "You need to select a zig version".toList)
      ∧ (env_empty.fopen (root0 ++ "\\zig\\selected".toList) ≠ none →
          env_empty.mallocOk 0 = false → msg = "Memory allocation failed".toList) :=
  resolver_fails_closed root0 argv0 env_empty (by decide) (Or.inr ⟨⟨0, []⟩, rfl, rfl⟩)

/-- C8 as stated fails when the child itself exits with 255: the selection
file is opened and holds `1.2.3`, every allocation succeeds, the child is
created and its exit code is retrieved, no diagnostic is written, and yet
the launcher exits with 255, which is not in 0..254. -/
theorem exit_code_255_counterexample :
    main root0 argv0 env_child_255 = some out_child_255
    ∧ env_child_255.getExitCodeProcess.ok = true
    ∧ env_child_255.getExitCodeProcess.written = some 255
    ∧ diagnostics out_child_255.trace = []
    ∧ exitStatus out_child_255.code = 255
    ∧ decide (exitStatus out_child_255.code ≤ 254) = false := by
  decide

/-- C8, amended. Every run with an internal failure (selection file
missing, selection empty, short read, allocation failure, spawn failure,
status query storing nothing) exits with 255. A run in which the child was
created and its exit code `c` retrieved exits with `c`, whatever 32-bit value
it is. So when the exit status is 255, either an internal failure occurred
or the child's own exit code is 255. -/
theorem exit_code_255 (root : List Char) (argv : List (List Char)) (env : Env)
    (out : Outcome)
    (hroot : NUL ∉ root) (hargv : ∀ a ∈ argv, NUL ∉ a)
    (hrun : main root argv env = some out) :
    (InternalFailure root env out → out.code = 255 ∧ exitStatus out.code = 255)
    ∧ (∀ (app cmd : List Char) (c : Nat), Event.createProcess app cmd true ∈ out.trace →
        env.getExitCodeProcess = ⟨true, some c⟩ → c < 2 ^ 32 → exitStatus out.code = c)
    ∧ (exitStatus out.code = 255 →
        InternalFailure root env out
        ∨ (Event.getExitCodeProcess ∈ out.trace
            ∧ ∃ c, env.getExitCodeProcess.written = some c ∧ c % 2 ^ 32 = 255)) := by
  have hr := run_of_main hroot hargv hrun
  have h255 : ((255 : Int) = 255 ∧ exitStatus 255 = 255) := ⟨rfl, by decide⟩
  unfold InternalFailure
  cases hr with
  | cannot_open msg hf _ =>
    exact ⟨fun _ => h255, by simp, fun _ => Or.inl (Or.inl hf)⟩
  | version_alloc f hf hm =>
    exact ⟨fun _ => h255, by simp,
      fun _ => Or.inl (Or.inr (Or.inr (Or.inr (Or.inl ⟨0, by decide, hm⟩))))⟩
  | read_failed f hf hm hsz =>
    exact ⟨fun _ => h255, by simp,
      fun _ => Or.inl (Or.inr (Or.inr (Or.inl ⟨f, hf, hsz⟩)))⟩
  | nothing_selected f hf hm hsz he =>
    exact ⟨fun _ => h255, by simp, fun _ => Or.inl (Or.inr (Or.inl ⟨f, hf, hsz, he⟩))⟩
  | path_alloc f hres hm =>
    exact ⟨fun _ => h255, by simp,
      fun _ => Or.inl (Or.inr (Or.inr (Or.inr (Or.inl ⟨1, by decide, hm⟩))))⟩
  | cmdline_alloc f hres _ hm =>
    exact ⟨fun _ => h255, by simp,
      fun _ => Or.inl (Or.inr (Or.inr (Or.inr (Or.inl ⟨2, by decide, hm⟩))))⟩
  | launch_failed f app cmd hres _ _ _ _ hcp =>
    exact ⟨fun _ => h255, by simp,
      fun _ => Or.inl (Or.inr (Or.inr (Or.inr (Or.inr (Or.inl ⟨app, cmd, by simp, hcp⟩)))))⟩
  | child_ran f app cmd hres hm1 hm2 _ _ hcp =>
    obtain ⟨hf, hm0, hsz, he⟩ := hres
    unfold selected_path at hf
    refine ⟨?_, ?_, ?_⟩
    · rintro (h | ⟨g, hg, -, hge⟩ | ⟨g, hg, hgs⟩ | ⟨k, hk, hmk⟩ | ⟨a, c, hmem, -⟩
        | ⟨-, hw⟩)
      · rw [hf] at h
        cases h
      · rw [hf] at hg
        cases hg
        exact absurd hge he
      · rw [hf] at hg
        cases hg
        exact absurd hsz hgs
      · have hk3 : k = 0 ∨ k = 1 ∨ k = 2 := by omega
        rcases hk3 with rfl | rfl | rfl
        · rw [hm0] at hmk
          cases hmk
        · rw [hm1] at hmk
          cases hmk
        · rw [hm2] at hmk
          cases hmk
      · simp at hmem
      · simp only [hw]
        exact h255
    · intro app2 cmd2 c _ hq hc
      simp only [hq]
      rw [exitStatus_toInt]
      simp only [Nat.mod_mod]
      exact Nat.mod_eq_of_lt hc
    · intro hst
      cases hw : env.getExitCodeProcess.written with
      | none =>
        exact Or.inl (Or.inr (Or.inr (Or.inr (Or.inr (Or.inr ⟨by simp, rfl⟩)))))
      | some c =>
        simp only [hw] at hst
        rw [exitStatus_toInt] at hst
        simp only [Nat.mod_mod] at hst
        exact Or.inr ⟨by simp, c, rfl, hst⟩

/-- C8 on the run whose child exits with 255: the exit status 255 is the
child's own. -/
theorem exit_code_255_witness :
    main root0 argv0 env_child_255 = some out_child_255
    ∧ exitStatus out_child_255.code = 255 :=
  ⟨by decide,
   (exit_code_255 root0 argv0 env_child_255 out_child_255 (by decide) (by decide)
      (by decide)).2.1 "C:\\zup\\zig\\1.2.3\\zig.exe".toList
      "C:\\zup\\zig\\1.2.3\\zig.exe build -O release".toList 255 (by decide) rfl
      (by decide)⟩

/-- C9 as stated fails on the status-query error path: the child is created
and waited for, the query fails and stores nothing, the launcher exits with
255, and it has written no diagnostic at all. -/
theorem failures_reported_counterexample :
    main root0 argv0 env_no_status = some out_no_status
    ∧ env_no_status.getExitCodeProcess.ok = false
    ∧ env_no_status.getExitCodeProcess.written = none
    ∧ out_no_status.code = 255
    ∧ diagnostics out_no_status.trace = [] := by
  decide

/-- C9, amended. No run writes to standard output. Every run that ends on
an error the launcher detects exits with 255, and the last thing it does is
write to the error stream the diagnostic of the step that failed, its only
diagnostic: `Cannot open ` and the path when the selection file cannot be
opened (the install root holding no `%`); `Memory allocation failed` when
the allocation of line 25, of line 53 or of line 70 is reached and fails;
`File read failed` when the read is short; `You need to select a zig
version` when the string read is empty; `Failed to launch `, the command
line and a newline when `CreateProcess` fails. These steps are tried in this
order, and a run that passes them all waits for the child. A run that waits
for the child writes no diagnostic, and it exits with 255 when the status
query stores nothing. -/
theorem failures_reported (root : List Char) (argv : List (List Char)) (env : Env)
    (out : Outcome)
    (hroot : NUL ∉ root) (hargv : ∀ a ∈ argv, NUL ∉ a)
    (hrun : main root argv env = some out) :
    (∀ text, Event.stdout text ∉ out.trace)
    ∧ (env.fopen (root ++ "\\zig\\selected".toList) = none →
        ∃ msg, ReportsAndFails out msg
          ∧ ('%' ∉ root →
              msg = "Cannot open ".toList ++ root ++ "\\zig\\selected".toList))
    ∧ (∀ f, env.fopen (root ++ "\\zig\\selected".toList) = some f →
        (env.mallocOk 0 = false →
          ReportsAndFails out "Memory allocation failed".toList)
        ∧ (env.mallocOk 0 = true → (f.data.take f.size).length ≠ f.size →
            ReportsAndFails out "File read failed".toList)
        ∧ (env.mallocOk 0 = true → (f.data.take f.size).length = f.size →
            cstr (f.data.take f.size) = [] →
            ReportsAndFails out "You need to select a zig version".toList)
        ∧ (env.mallocOk 0 = true → (f.data.take f.size).length = f.size →
            cstr (f.data.take f.size) ≠ [] →
            (env.mallocOk 1 = false →
              ReportsAndFails out "Memory allocation failed".toList)
            ∧ (env.mallocOk 1 = true → env.mallocOk 2 = false →
                ReportsAndFails out "Memory allocation failed".toList)
            ∧ (env.mallocOk 1 = true → env.mallocOk 2 = true →
                ∀ app cmd : List Char,
                  app = root ++ "\\zig\\".toList ++ cstr (f.data.take f.size)
                    ++ "\\zig.exe".toList →
                  cmd = app ++ forwarded (argv.drop 1) →
                  (env.createProcess app cmd = false →
                    Event.createProcess app cmd false ∈ out.trace
                    ∧ ReportsAndFails out
                        ("Failed to launch ".toList ++ cmd ++ "\n".toList))
                  ∧ (env.createProcess app cmd = true →
                      Event.waitForSingleObject ∈ out.trace))))
    ∧ (Event.waitForSingleObject ∉ out.trace → ∃ msg, ReportsAndFails out msg)
    ∧ (Event.waitForSingleObject ∈ out.trace →
        diagnostics out.trace = []
        ∧ (env.getExitCodeProcess.written = none → out.code = 255)) := by
  have hr := run_of_main hroot hargv hrun
  cases hr with
  | cannot_open msg hf hmsg =>
    simp only [selected_path] at hf
    refine ⟨by simp, fun _ => ⟨msg, ⟨rfl, rfl, rfl⟩, ?_⟩, ?_,
      fun _ => ⟨msg, rfl, rfl, rfl⟩, by simp⟩
    · intro hpct
      rw [format_open hroot hpct] at hmsg
      exact (Option.some.inj hmsg).symm
    · intro f hf2
      rw [hf] at hf2
      cases hf2
  | version_alloc f hf hm =>
    simp only [selected_path] at hf
    refine ⟨by simp, fun h => ?_, fun g hg => ?_, fun _ => ⟨_, rfl, rfl, rfl⟩, by simp⟩
    · rw [hf] at h
      cases h
    · rw [hf] at hg
      cases hg
      exact ⟨fun _ => ⟨rfl, rfl, rfl⟩, fun h => (by rw [hm] at h; cases h),
        fun h => (by rw [hm] at h; cases h), fun h => (by rw [hm] at h; cases h)⟩
  | read_failed f hf hm hsz =>
    simp only [selected_path] at hf
    refine ⟨by simp, fun h => ?_, fun g hg => ?_, fun _ => ⟨_, rfl, rfl, rfl⟩, by simp⟩
    · rw [hf] at h
      cases h
    · rw [hf] at hg
      cases hg
      exact ⟨fun h => (by rw [hm] at h; cases h), fun _ _ => ⟨rfl, rfl, rfl⟩,
        fun _ h => absurd h hsz, fun _ h => absurd h hsz⟩
  | nothing_selected f hf hm hsz he =>
    simp only [selected_path] at hf
    refine ⟨by simp, fun h => ?_, fun g hg => ?_, fun _ => ⟨_, rfl, rfl, rfl⟩, by simp⟩
    · rw [hf] at h
      cases h
    · rw [hf] at hg
      cases hg
      exact ⟨fun h => (by rw [hm] at h; cases h), fun _ h => absurd hsz h,
        fun _ _ _ => ⟨rfl, rfl, rfl⟩, fun _ _ h => absurd he h⟩
  | path_alloc f hres hm1 =>
    obtain ⟨hf, hm, hsz, he⟩ := hres
    simp only [selected_path] at hf
    refine ⟨by simp, fun h => ?_, fun g hg => ?_, fun _ => ⟨_, rfl, rfl, rfl⟩, by simp⟩
    · rw [hf] at h
      cases h
    · rw [hf] at hg
      cases hg
      exact ⟨fun h => (by rw [hm] at h; cases h), fun _ h => absurd hsz h,
        fun _ _ h => absurd h he,
        fun _ _ _ => ⟨fun _ => ⟨rfl, rfl, rfl⟩, fun h => (by rw [hm1] at h; cases h),
          fun h => (by rw [hm1] at h; cases h)⟩⟩
  | cmdline_alloc f hres hm1 hm2 =>
    obtain ⟨hf, hm, hsz, he⟩ := hres
    simp only [selected_path] at hf
    refine ⟨by simp, fun h => ?_, fun g hg => ?_, fun _ => ⟨_, rfl, rfl, rfl⟩, by simp⟩
    · rw [hf] at h
      cases h
    · rw [hf] at hg
      cases hg
      exact ⟨fun h => (by rw [hm] at h; cases h), fun _ h => absurd hsz h,
        fun _ _ h => absurd h he,
        fun _ _ _ => ⟨fun h => (by rw [hm1] at h; cases h), fun _ _ => ⟨rfl, rfl, rfl⟩,
          fun _ h => (by rw [hm2] at h; cases h)⟩⟩
  | launch_failed f app cmd hres hm1 hm2 happ hcmd hcp =>
    obtain ⟨hf, hm, hsz, he⟩ := hres
    simp only [selected_path] at hf
    simp only [exe_path] at happ
    refine ⟨by simp, fun h => ?_, fun g hg => ?_, fun _ => ⟨_, rfl, rfl, rfl⟩, by simp⟩
    · rw [hf] at h
      cases h
    · rw [hf] at hg
      cases hg
      refine ⟨fun h => (by rw [hm] at h; cases h), fun _ h => absurd hsz h,
        fun _ _ h => absurd h he,
        fun _ _ _ => ⟨fun h => (by rw [hm1] at h; cases h),
          fun _ h => (by rw [hm2] at h; cases h), fun _ _ a c ha hc => ?_⟩⟩
      have happ : a = app := by rw [ha, happ]
      subst happ
      have hcmd2 : c = cmd := by rw [hc, hcmd]
      subst hcmd2
      exact ⟨fun _ => ⟨by simp, rfl, rfl, rfl⟩, fun h => (by rw [hcp] at h; cases h)⟩
  | child_ran f app cmd hres hm1 hm2 happ hcmd hcp =>
    obtain ⟨hf, hm, hsz, he⟩ := hres
    simp only [selected_path] at hf
    simp only [exe_path] at happ
    refine ⟨by simp, fun h => ?_, fun g hg => ?_, fun h => absurd (by simp) h,
      fun _ => ⟨rfl, fun hw => ?_⟩⟩
    · rw [hf] at h
      cases h
    · rw [hf] at hg
      cases hg
      refine ⟨fun h => (by rw [hm] at h; cases h), fun _ h => absurd hsz h,
        fun _ _ h => absurd h he,
        fun _ _ _ => ⟨fun h => (by rw [hm1] at h; cases h),
          fun _ h => (by rw [hm2] at h; cases h), fun _ _ a c ha hc => ?_⟩⟩
      have happ : a = app := by rw [ha, happ]
      subst happ
      have hcmd2 : c = cmd := by rw [hc, hcmd]
      subst hcmd2
      exact ⟨fun h => (by rw [hcp] at h; cases h), fun _ => by simp⟩
    · simp only [hw]
      decide

/-- C9 on the run that cannot start the executable: exit code 255 after the
diagnostic `Failed to launch …`, its last call and only diagnostic. -/
theorem failures_reported_witness :
    main root0 argv0 env_no_exe = some out_no_exe
    ∧ (Event.createProcess
          (root0 ++ "\\zig\\".toList ++ cstr ("1.2.3".toList.take 5) ++ "\\zig.exe".toList)
          (root0 ++ "\\zig\\".toList ++ cstr ("1.2.3".toList.take 5) ++ "\\zig.exe".toList
            ++ forwarded (argv0.drop 1)) false ∈ out_no_exe.trace
      ∧ ReportsAndFails out_no_exe
          ("Failed to launch ".toList
            ++ (root0 ++ "\\zig\\".toList ++ cstr ("1.2.3".toList.take 5)
              ++ "\\zig.exe".toList ++ forwarded (argv0.drop 1))
            ++ "\n".toList)) :=
  ⟨by decide,
   ((((failures_reported root0 argv0 env_no_exe out_no_exe (by decide) (by decide)
      (by decide)).2.2.1 ⟨5, "1.2.3".toList⟩ rfl).2.2.2 rfl (by decide) (by decide)).2.2
      rfl rfl _ _ rfl rfl).1 rfl⟩

end Zupgrade
